import Mathlib

/-!
Verification development for the Minesweeper AI of `minesweeper.py`.

Embedding conventions:
* A board cell is a pair of integers `(row, col)`.
* Python `set` objects holding cells are embedded as sorted, duplicate-free
  lists (the outcomes relevant here do not depend on Python's set iteration
  order; the canonical order fixes one).
* `Sentence` objects are mutable in Python and aliased (the pairwise pass of
  `add_knowledge` iterates a snapshot of object references while the objects
  are mutated).  The embedding therefore keeps every sentence object in a
  `store` list, addressed by its index; the `knowledge` list holds indices.
* Python's `for x in lst` with `lst.remove(...)` in the body advances a
  position counter over the live list, so a removal at or before the current
  position skips the next element; `list.remove` removes the first element
  equal (by value) to its argument.  The loops below reproduce exactly this,
  using a fuel argument equal to the list length at entry (the lists never
  grow during these loops, so the fuel never runs out).
* `random` is modelled by passing the stream of sampled cells explicitly to
  `make_random_move`; `print` statements are omitted.
-/

abbrev Cell := Int × Int

/-- Canonical (lexicographic) order used to represent Python cell sets. -/
def cellLe (a b : Cell) : Bool :=
  decide (a.1 < b.1 ∨ (a.1 = b.1 ∧ a.2 ≤ b.2))

/-- Insert a cell into a sorted duplicate-free list, skipping duplicates. -/
def insertCell (c : Cell) : List Cell → List Cell
  | [] => [c]
  | d :: rest =>
    if c = d then d :: rest
    else if cellLe c d then c :: d :: rest
    else d :: insertCell c rest

/-- Canonical representation of `set(cells)` for a list of cells. -/
def sortCells (l : List Cell) : List Cell := l.foldr insertCell []

/-- Embeds the `Sentence` class: a set of cells and a mine count. -/
structure Sentence where
  cells : List Cell
  count : Int
deriving DecidableEq, Repr

/-- Embeds `Sentence.mark_mine`: if the cell is a member, remove it and
decrement the count. -/
def Sentence.mark_mine (s : Sentence) (cell : Cell) : Sentence :=
  if cell ∈ s.cells then { cells := s.cells.erase cell, count := s.count - 1 }
  else s

/-- Embeds `Sentence.mark_safe`: if the cell is a member, remove it. -/
def Sentence.mark_safe (s : Sentence) (cell : Cell) : Sentence :=
  if cell ∈ s.cells then { cells := s.cells.erase cell, count := s.count }
  else s

/-- Embeds the `MinesweeperAI` state.  `store` holds every `Sentence` object
ever created (Python objects are mutable references); `knowledge` is the live
list of the AI, holding store indices. -/
structure MinesweeperAI where
  height : Int
  width : Int
  moves_made : List Cell
  mines : List Cell
  safes : List Cell
  store : List Sentence
  knowledge : List Nat
deriving DecidableEq, Repr

namespace MinesweeperAI

/-- Embeds `MinesweeperAI.__init__`. -/
def init (height width : Int) : MinesweeperAI :=
  { height := height, width := width, moves_made := [], mines := [],
    safes := [], store := [], knowledge := [] }

/-- Reads the current value of the sentence object with the given store
index. -/
def getS (st : MinesweeperAI) (id : Nat) : Sentence :=
  st.store.getD id ⟨[], 0⟩

/-- The values of the live sentences, in knowledge-list order. -/
def knowledgeValues (st : MinesweeperAI) : List Sentence :=
  st.knowledge.map st.getS

/-- Embeds `self.knowledge.remove(sentence)`: Python `list.remove` deletes the
first element equal (by `Sentence.__eq__`, i.e. by value) to the argument. -/
def removeFirstEq (store : List Sentence) (val : Sentence) :
    List Nat → List Nat
  | [] => []
  | id :: rest =>
    if store.getD id ⟨[], 0⟩ = val then rest
    else id :: removeFirstEq store val rest

/-- The body of the `for sentence in self.knowledge` loop of
`MinesweeperAI.mark_mine`, at position `i` of the live list. -/
def markMineLoop (cell : Cell) : Nat → Nat → MinesweeperAI → MinesweeperAI
  | 0, _, st => st
  | fuel + 1, i, st =>
    if h : i < st.knowledge.length then
      let id := st.knowledge.get ⟨i, h⟩
      let s := (st.getS id).mark_mine cell
      let st' := { st with store := st.store.set id s }
      let st'' :=
        if s.cells.length = 0 then
          { st' with knowledge := removeFirstEq st'.store s st'.knowledge }
        else st'
      markMineLoop cell fuel (i + 1) st''
    else st

/-- Embeds `MinesweeperAI.mark_mine`. -/
def mark_mine (st : MinesweeperAI) (cell : Cell) : MinesweeperAI :=
  let st' := { st with mines := insertCell cell st.mines }
  markMineLoop cell st'.knowledge.length 0 st'

/-- The body of the `for sentence in self.knowledge` loop of
`MinesweeperAI.mark_safe`, at position `i` of the live list. -/
def markSafeLoop (cell : Cell) : Nat → Nat → MinesweeperAI → MinesweeperAI
  | 0, _, st => st
  | fuel + 1, i, st =>
    if h : i < st.knowledge.length then
      let id := st.knowledge.get ⟨i, h⟩
      let s := (st.getS id).mark_safe cell
      let st' := { st with store := st.store.set id s }
      let st'' :=
        if s.cells.length = 0 then
          { st' with knowledge := removeFirstEq st'.store s st'.knowledge }
        else st'
      markSafeLoop cell fuel (i + 1) st''
    else st

/-- Embeds `MinesweeperAI.mark_safe`. -/
def mark_safe (st : MinesweeperAI) (cell : Cell) : MinesweeperAI :=
  let st' := { st with safes := insertCell cell st.safes }
  markSafeLoop cell st'.knowledge.length 0 st'

/-- Embeds `MinesweeperAI.mark_all_mines`: iterates a copy of the sentence's
cell set (the argument is the value of the sentence when the copy is taken). -/
def mark_all_mines (st : MinesweeperAI) (s : Sentence) : MinesweeperAI :=
  s.cells.foldl mark_mine st

/-- Embeds `MinesweeperAI.mark_all_safe`. -/
def mark_all_safe (st : MinesweeperAI) (s : Sentence) : MinesweeperAI :=
  s.cells.foldl mark_safe st

/-- Embeds `MinesweeperAI.get_neighbors`: row-major enumeration of the 3×3
block around the cell, keeping in-bounds cells other than the cell itself. -/
def get_neighbors (st : MinesweeperAI) (cell : Cell) : List Cell :=
  [(cell.1 - 1, cell.2 - 1), (cell.1 - 1, cell.2), (cell.1 - 1, cell.2 + 1),
   (cell.1, cell.2 - 1), (cell.1, cell.2), (cell.1, cell.2 + 1),
   (cell.1 + 1, cell.2 - 1), (cell.1 + 1, cell.2), (cell.1 + 1, cell.2 + 1)
  ].filter fun p =>
    decide (0 ≤ p.1 ∧ p.1 < st.height ∧ 0 ≤ p.2 ∧ p.2 < st.width ∧ p ≠ cell)

/-- Embeds `MinesweeperAI.mines_in_neighbors`. -/
def mines_in_neighbors (st : MinesweeperAI) (cell : Cell) : Int :=
  ((st.get_neighbors cell).countP fun n => decide (n ∈ st.mines) : Nat)

/-- The `for neighbor in nieghbors` loop of `MinesweeperAI.unknown_neighbors`:
it removes from the very list being iterated, so a removal skips the next
element (the element that shifts into the removed position is never tested). -/
def removeKnownLoop (mines safes : List Cell) :
    Nat → Nat → List Cell → List Cell
  | 0, _, l => l
  | fuel + 1, i, l =>
    if h : i < l.length then
      let c := l.get ⟨i, h⟩
      let l' := if c ∈ mines ∨ c ∈ safes then l.erase c else l
      removeKnownLoop mines safes fuel (i + 1) l'
    else l

/-- Embeds `MinesweeperAI.unknown_neighbors`. -/
def unknown_neighbors (st : MinesweeperAI) (cell : Cell) : List Cell :=
  let ns := st.get_neighbors cell
  removeKnownLoop st.mines st.safes ns.length 0 ns

/-- The first stage of `MinesweeperAI.add_knowledge`: record the move, mark
the cell safe, and append the new sentence built from the unknown neighbors
and the residual count. -/
def add_knowledge_pre (st : MinesweeperAI) (cell : Cell) (count : Int) :
    MinesweeperAI :=
  let st₁ := { st with moves_made := insertCell cell st.moves_made }
  let st₂ := st₁.mark_safe cell
  let un := st₂.unknown_neighbors cell
  let km := st₂.mines_in_neighbors cell
  { st₂ with store := st₂.store ++ [⟨sortCells un, count - km⟩],
             knowledge := st₂.knowledge ++ [st₂.store.length] }

/-- The first `for sentence in self.knowledge` loop of `add_knowledge`
(direct resolution), at position `i` of the live list.  Removal happens via
`list.remove` on the live list, with the skip effect described above. -/
def directLoop : Nat → Nat → MinesweeperAI → MinesweeperAI
  | 0, _, st => st
  | fuel + 1, i, st =>
    if h : i < st.knowledge.length then
      let s := st.getS (st.knowledge.get ⟨i, h⟩)
      let st' :=
        if s.cells.length = 0 ∨ s.count < 0 then
          { st with knowledge := removeFirstEq st.store s st.knowledge }
        else if s.count = 0 then st.mark_all_safe s
        else if s.count = (s.cells.length : Int) then st.mark_all_mines s
        else st
      directLoop fuel (i + 1) st'
    else st

/-- The pairs produced by `itertools.combinations(self.knowledge, 2)`:
`combinations` snapshots the list when the loop starts, and the pairs hold
references to the sentence objects (here: their store indices). -/
def pairsOf : List Nat → List (Nat × Nat)
  | [] => []
  | x :: xs => (xs.map fun y => (x, y)) ++ pairsOf xs

/-- The body of the subset-resolution branch once a `new_sentence` has been
built: skip it if an equal sentence is live, mark all its cells safe if its
count is zero, otherwise append it. -/
def considerNew (st : MinesweeperAI) (ns : Sentence) : MinesweeperAI :=
  if ns ∈ st.knowledgeValues then st
  else if ns.count = 0 then st.mark_all_safe ns
  else { st with store := st.store ++ [ns],
                 knowledge := st.knowledge ++ [st.store.length] }

/-- The `for sentence1, sentence2 in itertools.combinations(...)` loop of
`add_knowledge`; each pair reads the current values of the two sentence
objects. -/
def pairwiseLoop (st : MinesweeperAI) : List (Nat × Nat) → MinesweeperAI
  | [] => st
  | (a, b) :: rest =>
    let s1 := st.getS a
    let s2 := st.getS b
    let st' :=
      if s1.cells.length = s2.cells.length then st
      else if s1.cells.all fun c => decide (c ∈ s2.cells) then
        considerNew st ⟨s2.cells.filter fun c => decide (c ∉ s1.cells),
                        s2.count - s1.count⟩
      else if s2.cells.all fun c => decide (c ∈ s1.cells) then
        considerNew st ⟨s1.cells.filter fun c => decide (c ∉ s2.cells),
                        s1.count - s2.count⟩
      else st
    pairwiseLoop st' rest

/-- Embeds `MinesweeperAI.add_knowledge` (the final `print_info` call is
output only and is omitted). -/
def add_knowledge (st : MinesweeperAI) (cell : Cell) (count : Int) :
    MinesweeperAI :=
  let st₁ := st.add_knowledge_pre cell count
  let st₂ := directLoop st₁.knowledge.length 0 st₁
  pairwiseLoop st₂ (pairsOf st₂.knowledge)

/-- Embeds `MinesweeperAI.make_safe_move`: return the first safe cell that is
neither played nor a known mine, or `none`. -/
def make_safe_move (st : MinesweeperAI) : Option Cell :=
  st.safes.find? fun c => decide (c ∉ st.moves_made ∧ c ∉ st.mines)

/-- The rejection-sampling loop of `make_random_move` over an explicit stream
of sampled cells. -/
def randLoop (moves mines : List Cell) : List Cell → Option Cell
  | [] => none
  | c :: rest =>
    if c ∉ moves ∧ c ∉ mines then some c else randLoop moves mines rest

/-- Embeds `MinesweeperAI.make_random_move`: examine at most
`height * width * 10` sampled cells, returning the first acceptable one. -/
def make_random_move (st : MinesweeperAI) (samples : List Cell) :
    Option Cell :=
  randLoop st.moves_made st.mines
    (samples.take (st.height * st.width * 10).toNat)

end MinesweeperAI

section Traces

open MinesweeperAI

/-- Starting state for the subset-resolution scenario: a knowledge base
holding A = {(1,1),(1,2)} with count 1 and B = {(1,1),(1,2),(1,3)} with
count 2, on a 5×5 board. -/
def subsetStart : MinesweeperAI :=
  { MinesweeperAI.init 5 5 with
    store := [⟨[(1, 1), (1, 2)], 1⟩, ⟨[(1, 1), (1, 2), (1, 3)], 2⟩],
    knowledge := [0, 1] }

/-- The state after revealing the far-away cell (4,4) with (truthful)
count 1 from `subsetStart`. -/
def subsetResult : MinesweeperAI := subsetStart.add_knowledge (4, 4) 1

/-- A truthful 3×3 game against mines at (0,0) and (1,2): reveal (2,2)
(one adjacent mine), (2,0) (none), (0,1) (two), (1,1) (two). -/
def kbTrace : MinesweeperAI :=
  ((((MinesweeperAI.init 3 3).add_knowledge (2, 2) 1).add_knowledge
      (2, 0) 0).add_knowledge (0, 1) 2).add_knowledge (1, 1) 2

/-- A truthful 3×3 game against mines at (0,1), (1,0), (1,1): mark the three
mines, then reveal the remaining corner (0,0), whose true count is 3. -/
def cornerTrace : MinesweeperAI :=
  ((((MinesweeperAI.init 3 3).mark_mine (0, 1)).mark_mine
      (1, 0)).mark_mine (1, 1)).add_knowledge (0, 0) 3

/-- A 3×3 state (mine at (2,0), say) where (0,0) and (0,1) have been marked
safe. -/
def safePairState : MinesweeperAI :=
  ((MinesweeperAI.init 3 3).mark_safe (0, 0)).mark_safe (0, 1)

/-- Revealing (1,1) (true count 1 for a mine at (2,0)) from
`safePairState`. -/
def safePairResult : MinesweeperAI := safePairState.add_knowledge (1, 1) 1

/-- A truthful 3×3 game against mines at (0,1) and (1,0): reveal (0,0)
(count 2), mark the two mines. -/
def zeroCountBase : MinesweeperAI :=
  (((MinesweeperAI.init 3 3).add_knowledge (0, 0) 2).mark_mine
      (0, 1)).mark_mine (1, 0)

/-- The state of `zeroCountBase.add_knowledge (2,2) 0` at the moment the
direct-resolution pass starts. -/
def zeroCountPre : MinesweeperAI := zeroCountBase.add_knowledge_pre (2, 2) 0

/-- The state after `zeroCountBase.add_knowledge (2,2) 0` returns. -/
def zeroCountPost : MinesweeperAI := zeroCountBase.add_knowledge (2, 2) 0

/-- A truthful 2×2 game with one mine at (0,1): reveal (0,0) and (1,1)
(count 1 each), mark (1,0) safe. -/
def dupBase : MinesweeperAI :=
  (((MinesweeperAI.init 2 2).add_knowledge (0, 0) 1).add_knowledge
      (1, 1) 1).mark_safe (1, 0)

/-- `dupBase` after marking the mine (0,1) once. -/
def dupOnce : MinesweeperAI := dupBase.mark_mine (0, 1)

/-- `dupBase` after marking the mine (0,1) twice. -/
def dupTwice : MinesweeperAI := dupOnce.mark_mine (0, 1)

end Traces

open MinesweeperAI

/-- C1 counterexample: starting from the knowledge base [A, B] of the claim,
the `add_knowledge` call derives and appends the sentence {(1,3)} = 1 but
does **not** put (1,3) into `mines`: the pairwise subset-resolution pass only
marks cells safe (derived count 0) or appends; it never marks mines. -/
theorem subset_resolution_no_mine_marked :
    ¬(((1 : Int), (3 : Int)) ∈ subsetResult.mines) := by decide

/-- C1 amended: from the knowledge base [A, B], the call derives the new
sentence {(1,3)} with count 1 and appends it to the knowledge base, but
(1,3) is not yet in `mines` when the call returns; it is marked a mine by the
direct-resolution pass of the next `add_knowledge` call. -/
theorem subset_resolution_derives_sentence :
    (Sentence.mk [((1 : Int), (3 : Int))] 1) ∈ subsetResult.knowledgeValues ∧
    ((1 : Int), (3 : Int)) ∉ subsetResult.mines ∧
    ((1 : Int), (3 : Int)) ∈ (subsetResult.add_knowledge (0, 4) 0).mines := by
  decide

/-- C2: after the truthful trace `kbTrace`, the knowledge base retains a
sentence violating `0 ≤ count ≤ |cells|` (namely {(2,1)} with count −1):
the skip effect of removing during iteration and the unchecked appends of the
pairwise pass defeat the invariant. -/
theorem count_invariant_violated :
    ∃ s ∈ kbTrace.knowledgeValues,
      ¬(0 ≤ s.count ∧ s.count ≤ (s.cells.length : Int)) := by decide

/-- C3: after the truthful trace `cornerTrace`, the cell (1,0) is in both
`mines` and `safes`: `unknown_neighbors` removes from the list it iterates,
skipping (1,0), which then lands in a count-0 sentence and is marked safe. -/
theorem mines_safes_not_disjoint :
    ((1 : Int), (0 : Int)) ∈ cornerTrace.mines ∧
    ((1 : Int), (0 : Int)) ∈ cornerTrace.safes := by decide

/-- C4: with (0,0) and (0,1) already proven safe, `unknown_neighbors (1,1)`
still returns (0,1) (the in-place removal of (0,0) skips it), so the sentence
appended by `add_knowledge` contains a cell already proven safe. -/
theorem appended_sentence_contains_known_cell :
    ((0 : Int), (1 : Int)) ∈ safePairState.safes ∧
    ((0 : Int), (1 : Int)) ∈ safePairState.unknown_neighbors (1, 1) ∧
    ∃ s ∈ safePairResult.knowledgeValues,
      ((0 : Int), (1 : Int)) ∈ s.cells := by decide

/-- C5: after the truthful trace `kbTrace`, the sentence {(2,1)} with
count −1 is still present in the knowledge base when `add_knowledge`
returns — a negative-count sentence is retained, not discarded. -/
theorem negative_count_sentence_retained :
    (Sentence.mk [((2 : Int), (1 : Int))] (-1)) ∈ kbTrace.knowledgeValues := by
  decide

/-- C6: the sentence {(1,1),(1,2),(2,1)} with count 0 is in the knowledge
base when the direct-resolution pass of `zeroCountBase.add_knowledge (2,2) 0`
runs, yet when the call returns the sentence is still in the knowledge base
and its cell (1,2) has not been marked safe: the pass skipped it after an
earlier removal. -/
theorem zero_count_sentence_survives :
    (Sentence.mk [(1, 1), (1, 2), (2, 1)] 0) ∈ zeroCountPre.knowledgeValues ∧
    (Sentence.mk [(1, 1), (1, 2), (2, 1)] 0) ∈ zeroCountPost.knowledgeValues ∧
    ((1 : Int), (2 : Int)) ∉ zeroCountPost.safes := by decide

/-- C7 counterexample: from the reachable state `dupBase` (whose knowledge
base holds two equal sentences {(0,1)} = 1), calling `mark_mine (0,1)` twice
does not equal calling it once: the first call's removal pass skips the
second sentence, and the second call then removes it. -/
theorem mark_mine_not_idempotent :
    dupTwice.knowledgeValues ≠ dupOnce.knowledgeValues := by decide

/-! Helper lemmas about `insertCell` and the loop bodies, used by the
idempotence and monotonicity theorems below. -/

theorem mem_insertCell_self (c : Cell) (l : List Cell) : c ∈ insertCell c l := by
  induction l with
  | nil => simp [insertCell]
  | cons d rest ih =>
    by_cases h : c = d
    · simp [insertCell, h]
    · by_cases h2 : cellLe c d <;> simp [insertCell, h, h2, ih]

theorem mem_insertCell_of_mem {x : Cell} (c : Cell) {l : List Cell}
    (hx : x ∈ l) : x ∈ insertCell c l := by
  induction l with
  | nil => cases hx
  | cons d rest ih =>
    rw [List.mem_cons] at hx
    by_cases h : c = d
    · simp only [insertCell, if_pos h, List.mem_cons]
      exact hx
    · by_cases h2 : cellLe c d
      · simp only [insertCell, if_neg h, if_pos h2, List.mem_cons]
        exact Or.inr hx
      · simp only [insertCell, if_neg h, if_neg h2, List.mem_cons]
        rcases hx with rfl | hx
        · exact Or.inl rfl
        · exact Or.inr (ih hx)

theorem insertCell_idem (c : Cell) (l : List Cell) :
    insertCell c (insertCell c l) = insertCell c l := by
  induction l with
  | nil => simp [insertCell]
  | cons d rest ih =>
    by_cases h : c = d
    · simp [insertCell, h]
    · by_cases h2 : cellLe c d
      · simp [insertCell, h, h2]
      · simp [insertCell, h, h2, ih]

theorem markMineLoop_sets (cell : Cell) :
    ∀ (fuel i : Nat) (st : MinesweeperAI),
      (markMineLoop cell fuel i st).moves_made = st.moves_made ∧
      (markMineLoop cell fuel i st).mines = st.mines ∧
      (markMineLoop cell fuel i st).safes = st.safes := by
  intro fuel
  induction fuel with
  | zero => intro i st; exact ⟨rfl, rfl, rfl⟩
  | succ n ih =>
    intro i st
    simp only [markMineLoop]
    split
    · split <;> exact ih _ _
    · exact ⟨rfl, rfl, rfl⟩

theorem markSafeLoop_sets (cell : Cell) :
    ∀ (fuel i : Nat) (st : MinesweeperAI),
      (markSafeLoop cell fuel i st).moves_made = st.moves_made ∧
      (markSafeLoop cell fuel i st).mines = st.mines ∧
      (markSafeLoop cell fuel i st).safes = st.safes := by
  intro fuel
  induction fuel with
  | zero => intro i st; exact ⟨rfl, rfl, rfl⟩
  | succ n ih =>
    intro i st
    simp only [markSafeLoop]
    split
    · split <;> exact ih _ _
    · exact ⟨rfl, rfl, rfl⟩

theorem mark_mine_sets (st : MinesweeperAI) (cell : Cell) :
    (st.mark_mine cell).moves_made = st.moves_made ∧
    (st.mark_mine cell).mines = insertCell cell st.mines ∧
    (st.mark_mine cell).safes = st.safes :=
  markMineLoop_sets cell _ 0 { st with mines := insertCell cell st.mines }

theorem mark_safe_sets (st : MinesweeperAI) (cell : Cell) :
    (st.mark_safe cell).moves_made = st.moves_made ∧
    (st.mark_safe cell).mines = st.mines ∧
    (st.mark_safe cell).safes = insertCell cell st.safes :=
  markSafeLoop_sets cell _ 0 { st with safes := insertCell cell st.safes }

/-- C7 amended: `mark_safe`/`mark_mine` are idempotent on a `Sentence` (whose
cell set, being a Python set, has no duplicates), and on the AI state the
repeated call leaves `moves_made`, `mines` and `safes` exactly as after one
call; the knowledge list, however, may differ (see the counterexample). -/
theorem mark_twice_eq_mark_once (s : Sentence) (cell : Cell)
    (hnd : s.cells.Nodup) (st : MinesweeperAI) :
    (s.mark_mine cell).mark_mine cell = s.mark_mine cell ∧
    (s.mark_safe cell).mark_safe cell = s.mark_safe cell ∧
    ((st.mark_mine cell).mark_mine cell).moves_made =
      (st.mark_mine cell).moves_made ∧
    ((st.mark_mine cell).mark_mine cell).mines = (st.mark_mine cell).mines ∧
    ((st.mark_mine cell).mark_mine cell).safes = (st.mark_mine cell).safes ∧
    ((st.mark_safe cell).mark_safe cell).moves_made =
      (st.mark_safe cell).moves_made ∧
    ((st.mark_safe cell).mark_safe cell).mines = (st.mark_safe cell).mines ∧
    ((st.mark_safe cell).mark_safe cell).safes = (st.mark_safe cell).safes := by
  have hne : cell ∉ s.cells.erase cell := fun h =>
    ((hnd.mem_erase_iff).1 h).1 rfl
  refine ⟨?_, ?_, ?_, ?_, ?_, ?_, ?_, ?_⟩
  · by_cases h : cell ∈ s.cells
    · simp [Sentence.mark_mine, h, hne]
    · simp [Sentence.mark_mine, h]
  · by_cases h : cell ∈ s.cells
    · simp [Sentence.mark_safe, h, hne]
    · simp [Sentence.mark_safe, h]
  · rw [(mark_mine_sets _ _).1, (mark_mine_sets _ _).1]
  · rw [(mark_mine_sets _ _).2.1, (mark_mine_sets _ _).2.1,
      insertCell_idem]
  · rw [(mark_mine_sets _ _).2.2, (mark_mine_sets _ _).2.2]
  · rw [(mark_safe_sets _ _).1, (mark_safe_sets _ _).1]
  · rw [(mark_safe_sets _ _).2.1, (mark_safe_sets _ _).2.1]
  · rw [(mark_safe_sets _ _).2.2, (mark_safe_sets _ _).2.2,
      insertCell_idem]

/-- Closed instance of `mark_twice_eq_mark_once` at a concrete sentence and
state. -/
theorem mark_twice_eq_mark_once_witness :
    ((Sentence.mk [((0 : Int), (0 : Int))] 1).mark_mine
        ((0 : Int), (0 : Int))).mark_mine ((0 : Int), (0 : Int)) =
      (Sentence.mk [((0 : Int), (0 : Int))] 1).mark_mine
        ((0 : Int), (0 : Int)) :=
  (mark_twice_eq_mark_once ⟨[((0 : Int), (0 : Int))], 1⟩
    ((0 : Int), (0 : Int)) (by decide) (MinesweeperAI.init 2 2)).1

/-! Monotonicity machinery: the three public sets only ever gain cells. -/

/-- The three proven/played sets of `a` are contained in those of `b`. -/
def Grows (a b : MinesweeperAI) : Prop :=
  (∀ x, x ∈ a.moves_made → x ∈ b.moves_made) ∧
  (∀ x, x ∈ a.mines → x ∈ b.mines) ∧
  (∀ x, x ∈ a.safes → x ∈ b.safes)

theorem grows_refl (a : MinesweeperAI) : Grows a a :=
  ⟨fun _ h => h, fun _ h => h, fun _ h => h⟩

theorem grows_trans {a b c : MinesweeperAI} (h1 : Grows a b)
    (h2 : Grows b c) : Grows a c :=
  ⟨fun x h => h2.1 x (h1.1 x h), fun x h => h2.2.1 x (h1.2.1 x h),
   fun x h => h2.2.2 x (h1.2.2 x h)⟩

theorem mark_mine_grows (st : MinesweeperAI) (cell : Cell) :
    Grows st (st.mark_mine cell) := by
  obtain ⟨h1, h2, h3⟩ := mark_mine_sets st cell
  exact ⟨fun x h => h1 ▸ h, fun x h => h2 ▸ mem_insertCell_of_mem cell h,
    fun x h => h3 ▸ h⟩

theorem mark_safe_grows (st : MinesweeperAI) (cell : Cell) :
    Grows st (st.mark_safe cell) := by
  obtain ⟨h1, h2, h3⟩ := mark_safe_sets st cell
  exact ⟨fun x h => h1 ▸ h, fun x h => h2 ▸ h,
    fun x h => h3 ▸ mem_insertCell_of_mem cell h⟩

theorem foldl_grows {f : MinesweeperAI → Cell → MinesweeperAI}
    (hf : ∀ st c, Grows st (f st c)) :
    ∀ (l : List Cell) (st : MinesweeperAI), Grows st (l.foldl f st) := by
  intro l
  induction l with
  | nil => intro st; exact grows_refl st
  | cons c rest ih =>
    intro st
    exact grows_trans (hf st c) (ih (f st c))

theorem mark_all_mines_grows (st : MinesweeperAI) (s : Sentence) :
    Grows st (st.mark_all_mines s) :=
  foldl_grows mark_mine_grows s.cells st

theorem mark_all_safe_grows (st : MinesweeperAI) (s : Sentence) :
    Grows st (st.mark_all_safe s) :=
  foldl_grows mark_safe_grows s.cells st

theorem directLoop_grows :
    ∀ (fuel i : Nat) (st : MinesweeperAI), Grows st (directLoop fuel i st) := by
  intro fuel
  induction fuel with
  | zero => intro i st; exact grows_refl st
  | succ n ih =>
    intro i st
    simp only [directLoop]
    split
    · refine grows_trans ?_ (ih _ _)
      split
      · exact grows_refl _
      · split
        · exact mark_all_safe_grows _ _
        · split
          · exact mark_all_mines_grows _ _
          · exact grows_refl _
    · exact grows_refl st

theorem considerNew_grows (st : MinesweeperAI) (ns : Sentence) :
    Grows st (considerNew st ns) := by
  unfold considerNew
  split
  · exact grows_refl st
  · split
    · exact mark_all_safe_grows _ _
    · exact grows_refl _

theorem pairwiseLoop_grows :
    ∀ (pairs : List (Nat × Nat)) (st : MinesweeperAI),
      Grows st (pairwiseLoop st pairs) := by
  intro pairs
  induction pairs with
  | nil => intro st; exact grows_refl st
  | cons p rest ih =>
    intro st
    obtain ⟨a, b⟩ := p
    simp only [pairwiseLoop]
    refine grows_trans ?_ (ih _)
    split
    · exact grows_refl _
    · split
      · exact considerNew_grows _ _
      · split
        · exact considerNew_grows _ _
        · exact grows_refl _

theorem add_knowledge_pre_grows (st : MinesweeperAI) (cell : Cell)
    (count : Int) : Grows st (st.add_knowledge_pre cell count) := by
  unfold add_knowledge_pre
  refine grows_trans (b := { st with moves_made := insertCell cell st.moves_made })
    ⟨fun x h => mem_insertCell_of_mem cell h, fun x h => h, fun x h => h⟩ ?_
  refine grows_trans (mark_safe_grows _ cell) ?_
  exact ⟨fun x h => h, fun x h => h, fun x h => h⟩

theorem add_knowledge_grows (st : MinesweeperAI) (cell : Cell)
    (count : Int) : Grows st (st.add_knowledge cell count) := by
  unfold add_knowledge
  exact grows_trans (add_knowledge_pre_grows st cell count)
    (grows_trans (directLoop_grows _ 0 _) (pairwiseLoop_grows _ _))

/-- C10: the sets `mines`, `safes` and `moves_made` are monotonically
non-decreasing under every state-mutating public operation (`mark_mine`,
`mark_safe`, `add_knowledge`); `make_safe_move` and `make_random_move` are
embedded as pure functions returning only the move, mirroring a source body
that assigns to no attribute, so they cannot remove cells from any set. -/
theorem public_ops_monotone (st : MinesweeperAI) (cell : Cell)
    (count : Int) :
    Grows st (st.mark_mine cell) ∧ Grows st (st.mark_safe cell) ∧
    Grows st (st.add_knowledge cell count) :=
  ⟨mark_mine_grows st cell, mark_safe_grows st cell,
   add_knowledge_grows st cell count⟩

/-- Closed instance of `public_ops_monotone` at a concrete state and cell. -/
theorem public_ops_monotone_witness :
    Grows (MinesweeperAI.init 2 2)
      ((MinesweeperAI.init 2 2).mark_mine ((0 : Int), (0 : Int))) :=
  (public_ops_monotone (MinesweeperAI.init 2 2) ((0 : Int), (0 : Int)) 0).1

/-- C8: `make_safe_move` returns a cell of `safes` that is neither played nor
a known mine whenever one exists, and `none` otherwise.  The source body only
reads `safes`, `moves_made` and `mines`, so the embedding is a pure function
of the state and the frame condition (no mutation) holds by construction. -/
theorem make_safe_move_spec (st : MinesweeperAI) :
    (∀ c : Cell, st.make_safe_move = some c →
      c ∈ st.safes ∧ c ∉ st.moves_made ∧ c ∉ st.mines) ∧
    ((∃ c ∈ st.safes, c ∉ st.moves_made ∧ c ∉ st.mines) →
      ∃ c, st.make_safe_move = some c) ∧
    ((∀ c ∈ st.safes, c ∈ st.moves_made ∨ c ∈ st.mines) →
      st.make_safe_move = none) := by
  refine ⟨?_, ?_, ?_⟩
  · intro c h
    unfold make_safe_move at h
    have hm := List.mem_of_find?_eq_some h
    have hp := List.find?_some h
    rw [decide_eq_true_eq] at hp
    exact ⟨hm, hp.1, hp.2⟩
  · rintro ⟨c, hc, h1, h2⟩
    cases hf : st.make_safe_move with
    | some c' => exact ⟨c', rfl⟩
    | none =>
      exfalso
      unfold make_safe_move at hf
      rw [List.find?_eq_none] at hf
      have := hf c hc
      simp only [decide_eq_true_eq] at this
      exact this ⟨h1, h2⟩
  · intro hall
    unfold make_safe_move
    rw [List.find?_eq_none]
    intro x hx
    simp only [decide_eq_true_eq]
    rcases hall x hx with h | h
    · exact fun hcon => hcon.1 h
    · exact fun hcon => hcon.2 h

/-- Closed instance of `make_safe_move_spec`: on a state with safe cell (0,1)
neither played nor a mine, a move is returned. -/
theorem make_safe_move_spec_witness :
    ∃ c, ({ MinesweeperAI.init 2 2 with
              safes := [((0 : Int), (1 : Int))] } :
            MinesweeperAI).make_safe_move = some c :=
  (make_safe_move_spec _).2.1 ⟨((0 : Int), (1 : Int)), by decide, by decide,
    by decide⟩

theorem randLoop_some {moves mines : List Cell} :
    ∀ {l : List Cell} {c : Cell},
      randLoop moves mines l = some c → c ∉ moves ∧ c ∉ mines := by
  intro l
  induction l with
  | nil => intro c h; cases h
  | cons d rest ih =>
    intro c h
    unfold randLoop at h
    split at h
    · cases h
      assumption
    · exact ih h

theorem randLoop_none {moves mines : List Cell} :
    ∀ l : List Cell, (∀ c ∈ l, c ∈ moves ∨ c ∈ mines) →
      randLoop moves mines l = none := by
  intro l
  induction l with
  | nil => intro _; rfl
  | cons d rest ih =>
    intro hall
    unfold randLoop
    split
    · rename_i hd
      rcases hall d (List.mem_cons_self d rest) with h | h
      · exact absurd h hd.1
      · exact absurd h hd.2
    · exact ih fun c hc => hall c (List.mem_cons_of_mem d hc)

/-- C9: `make_random_move` examines only the first `height·width·10` sampled
cells (the bounded retry budget); any returned cell is neither played nor a
known mine; and if every in-bounds cell is played or a known mine then (since
`random.randint` only yields in-bounds samples) the call returns `none`. -/
theorem make_random_move_spec (st : MinesweeperAI) (samples : List Cell) :
    (∀ c : Cell, st.make_random_move samples = some c →
      c ∉ st.moves_made ∧ c ∉ st.mines) ∧
    st.make_random_move samples =
      st.make_random_move
        (samples.take (st.height * st.width * 10).toNat) ∧
    ((∀ c : Cell, 0 ≤ c.1 → c.1 < st.height → 0 ≤ c.2 → c.2 < st.width →
        c ∈ st.moves_made ∨ c ∈ st.mines) →
      (∀ c ∈ samples,
        0 ≤ c.1 ∧ c.1 < st.height ∧ 0 ≤ c.2 ∧ c.2 < st.width) →
      st.make_random_move samples = none) := by
  refine ⟨?_, ?_, ?_⟩
  · intro c h
    unfold make_random_move at h
    exact randLoop_some h
  · unfold make_random_move
    rw [List.take_take, Nat.min_self]
  · intro hboard hsamp
    unfold make_random_move
    apply randLoop_none
    intro c hc
    obtain ⟨a1, a2, a3, a4⟩ := hsamp c (List.take_subset _ _ hc)
    exact hboard c a1 a2 a3 a4

/-- Closed instance of `make_random_move_spec`: on a 1×1 board whose only
cell is played, an in-bounds sample stream yields no move. -/
theorem make_random_move_spec_witness :
    ({ MinesweeperAI.init 1 1 with
         moves_made := [((0 : Int), (0 : Int))] } :
       MinesweeperAI).make_random_move [((0 : Int), (0 : Int))] = none :=
  (make_random_move_spec _ _).2.2
    (by
      intro c h1 h2 h3 h4
      left
      obtain ⟨x, y⟩ := c
      have hh : ({ MinesweeperAI.init 1 1 with
          moves_made := [((0 : Int), (0 : Int))] } :
          MinesweeperAI).height = 1 := rfl
      have hw : ({ MinesweeperAI.init 1 1 with
          moves_made := [((0 : Int), (0 : Int))] } :
          MinesweeperAI).width = 1 := rfl
      rw [hh] at h2
      rw [hw] at h4
      have e1 : x = 0 := by omega
      have e2 : y = 0 := by omega
      rw [e1, e2]
      exact List.mem_singleton.2 rfl)
    (by decide)
